import Mathlib

/-!
Verification development for the forum media-crawler repository
(`app.py` and `bot.py`).

The development shallowly embeds the crawler's core algorithms:

* the Date-Window Generator (`generate_links`),
* the recursive Range Splitter (`split_url`, both the `app.py` variant,
  which re-buffers on every recursive call, and the `bot.py` variant),
* the Resilient Fetcher retry loop (`make_request`),
* the Post Extractor (`process_post`) together with the per-crawl
  deduplicating store, and the crawl loop over subjects.

Conventions:

* Calendar dates are `CalDate` triples `(year, month, day)`; the Python
  code's `strptime`/`strftime` round-trips on `"%Y-%m-%d"` strings are a
  bijection with such triples, and `datetime` comparison is the
  lexicographic order on them.  A `datetime.now()` value compares with the
  midnight values produced by `strptime` exactly as its date triple does,
  so `now` is modelled by its date triple.
* In the Range Splitter all date arithmetic is `timedelta(days = n)`
  steps, so there dates are modelled as integer day numbers with
  2010-01-01 as day 0 (the code clamps `year < 2010` to 2010-01-01,
  i.e. day numbers below 0 to 0).
* HTML documents reached through BeautifulSoup are external inputs; the
  parsed page is modelled by the `Page`/`Article` structures exposing
  exactly the attributes the code reads.
* Network requests are oracles passed in as functions (page-count probes
  for the splitter, per-attempt outcomes for the fetcher, fetched pages
  for the extractor).
-/

/-! ## Calendar dates as triples (Date-Window Generator) -/

/-- A calendar date `(year, month, day)`, the image of `"%Y-%m-%d"` under
`datetime.strptime`. -/
structure CalDate where
  y : Int
  m : Nat
  d : Nat
deriving DecidableEq, Repr

/-- Lexicographic strict order on dates: the order `datetime` comparison
induces on `"%Y-%m-%d"` values. -/
def dLt (a b : CalDate) : Bool :=
  decide (a.y < b.y ∨ (a.y = b.y ∧ (a.m < b.m ∨ (a.m = b.m ∧ a.d < b.d))))

/-- The `months` table of `app.py` `generate_links` (lines 109-116): 24
`(startMonthDay, endMonthDay)` pairs, each as `((month, day), (month, day))`. -/
def monthsApp : List ((Nat × Nat) × (Nat × Nat)) :=
  [((12,13),(1,3)), ((11,28),(12,18)), ((11,13),(12,3)), ((10,29),(11,18)),
   ((10,13),(11,3)), ((9,28),(10,18)), ((9,13),(10,3)), ((8,29),(9,18)),
   ((8,13),(9,3)), ((7,29),(8,18)), ((7,13),(8,3)), ((6,28),(7,18)),
   ((6,13),(7,3)), ((5,29),(6,18)), ((5,13),(6,3)), ((4,28),(5,18)),
   ((4,13),(5,3)), ((3,29),(4,18)), ((3,13),(4,3)), ((2,26),(3,18)),
   ((2,13),(3,3)), ((1,29),(2,18)), ((1,13),(2,3)), ((12,29),(1,18))]

/-- Python `range(hi, lo - 1, -1)` over integers: `[hi, hi-1, ..., lo]`. -/
def intRangeDesc (hi lo : Int) : List Int :=
  (List.range (hi - lo + 1).toNat).map (fun i => hi - (i : Int))

/-- Start date of a table pair: `start_year_adj = year - 1` when the start
month-day starts with `"12-"`. -/
def genStart (year : Int) (mp : (Nat × Nat) × (Nat × Nat)) : CalDate :=
  ⟨if mp.1.1 == 12 then year - 1 else year, mp.1.1, mp.1.2⟩

/-- End date of a table pair: `end_year_adj = year + 1` when the end
month-day starts with `"01-"`. -/
def genEnd (year : Int) (mp : (Nat × Nat) × (Nat × Nat)) : CalDate :=
  ⟨if mp.2.1 == 1 then year + 1 else year, mp.2.1, mp.2.2⟩

/-- One iteration of the inner loop of `app.py` `generate_links`
(lines 121-156): adjust the years of a month-day pair across year
boundaries, skip windows starting in the future, clip the end date to
`now`, and validate the range.  Note that the validation
`start_dt >= end_dt` (line 145) compares against the UNCLIPPED end date.
Every table entry is a valid date, so `strptime` never raises here.
The generated URL string carries the same `(start, end)` data and is
omitted. -/
def genWindow (now : CalDate) (year : Int) (mp : (Nat × Nat) × (Nat × Nat)) :
    Option (Int × CalDate × CalDate) :=
  if dLt now (genStart year mp) then none
  else
    let eClip := if dLt now (genEnd year mp) then now else genEnd year mp
    if dLt (genStart year mp) (genEnd year mp) then
      some (year, genStart year mp, eClip)
    else none

/-- Embedding of `generate_links(start_year, end_year, username)` of `app.py`
(lines 90-162), date logic only: the `username` and `title_only`
arguments only feed the URL string and do not affect which windows are
produced. -/
def generate_links (now : CalDate) (startYear endYear : Int) :
    List (Int × CalDate × CalDate) :=
  let startY := max 2010 startYear
  let endY := min endYear now.y
  (intRangeDesc endY startY).flatMap (fun year =>
    monthsApp.filterMap (genWindow now year))

/-- Core fact for C5: any window `genWindow` emits has a start not after
`now`, and its end is either strictly after the start or is the clipped
value `now` itself. -/
theorem genWindow_sound (now : CalDate) (year : Int)
    (mp : (Nat × Nat) × (Nat × Nat)) (y : Int) (s e : CalDate)
    (h : genWindow now year mp = some (y, s, e)) :
    dLt now s = false ∧ (dLt s e = true ∨ e = now) := by
  simp only [genWindow] at h
  split at h
  next h1 => exact absurd h (by simp)
  next h1 =>
    split at h
    next h2 =>
      simp only [Option.some.injEq, Prod.mk.injEq] at h
      obtain ⟨rfl, rfl, rfl⟩ := h
      refine ⟨by simpa using h1, ?_⟩
      split
      · exact Or.inr rfl
      · exact Or.inl h2
    next h2 => exact absurd h (by simp)

/-- C5 support: soundness transfers to every member of the generated
window list. -/
theorem generate_links_sound (now : CalDate) (startYear endYear : Int)
    (y : Int) (s e : CalDate)
    (h : (y, s, e) ∈ generate_links now startYear endYear) :
    dLt now s = false ∧ (dLt s e = true ∨ e = now) := by
  simp only [generate_links, List.mem_flatMap, List.mem_filterMap] at h
  obtain ⟨year, _, mp, _, hw⟩ := h
  exact genWindow_sound now year mp y s e hw

/-- C5 (corrected).  The Date-Window Generator never emits a window whose
start date is after `now`; an emitted window's end date is strictly after
its start date whenever the end date was not clipped, but when the end
date is clipped to `now` the emitted window may have `start = end`
(the `start_dt >= end_dt` validation at `app.py` line 145 compares against
the UNCLIPPED end date).  Thus: start is never in the future, and
`start < end` holds except that a clipped window may end exactly at `now`
with `start <= now`. -/
theorem C5_theorem : ∀ (now : CalDate) (startYear endYear : Int)
    (y : Int) (s e : CalDate),
    (y, s, e) ∈ generate_links now startYear endYear →
    dLt now s = false ∧ (dLt s e = true ∨ (e = now ∧ dLt e s = false)) := by
  intro now sy ey y s e h
  obtain ⟨h1, h2⟩ := generate_links_sound now sy ey y s e h
  refine ⟨h1, ?_⟩
  rcases h2 with h2 | rfl
  · exact Or.inl h2
  · exact Or.inr ⟨rfl, h1⟩

/-- Witness for C5: a concrete generated window (year 2020 crawled in
mid-2026, table pair `("12-13", "01-03")`) satisfies the theorem. -/
theorem C5_witness :
    ((2020, (⟨2019, 12, 13⟩ : CalDate), (⟨2021, 1, 3⟩ : CalDate)) ∈
        generate_links ⟨2026, 6, 15⟩ 2020 2020) ∧
      (dLt ⟨2026, 6, 15⟩ ⟨2019, 12, 13⟩ = false ∧
        (dLt ⟨2019, 12, 13⟩ ⟨2021, 1, 3⟩ = true ∨
          ((⟨2021, 1, 3⟩ : CalDate) = ⟨2026, 6, 15⟩ ∧
            dLt ⟨2021, 1, 3⟩ ⟨2019, 12, 13⟩ = false))) :=
  ⟨by decide, C5_theorem ⟨2026, 6, 15⟩ 2020 2020 2020 ⟨2019, 12, 13⟩
    ⟨2021, 1, 3⟩ (by decide)⟩

/-- C5 counterexample.  With `now = 2025-11-28`, crawling years
2025-2025 emits the window `(2025-11-28, 2025-11-28)`: its end date was
clipped to `now` and the emitted window has `start >= end`, contradicting
the claim that no window has `start >= end` after clipping. -/
theorem C5_counterexample :
    ((2025, (⟨2025, 11, 28⟩ : CalDate), (⟨2025, 11, 28⟩ : CalDate)) ∈
        generate_links ⟨2025, 11, 28⟩ 2025 2025) ∧
      dLt ⟨2025, 11, 28⟩ ⟨2025, 11, 28⟩ = false := by
  constructor
  · decide
  · decide

/-! ## Range Splitter on integer day numbers

Dates in `split_url` are manipulated only through `timedelta(days = n)`
and `"%Y-%m-%d"` round-trips, so they are modelled as integer day numbers
with 2010-01-01 as day 0; `buffered_start_dt.year < 2010` is day < 0, and
`now` is a day-number parameter.  The page-count probe (fetch of the
buffered URL plus pagination parse, which depends on the window's dates
only) is an oracle `probe : Int → Int → Option Nat`, `none` modelling a
fetch or parse failure.  Recursion depth is made explicit with fuel:
`none` means the recursion did not finish within the given depth. -/

/-- Embedding of `split_url` of `app.py` (lines 164-246): re-buffer by 3 days, clamp to
`[2010-01-01, now]`, probe, and bisect with child windows
`(bs, mid+3)` and `(mid-3, be)` clamped to `now`. -/
def splitUrlApp (probe : Int → Int → Option Nat) (now : Int) (mp : Nat) :
    Nat → Int → Int → Option (List (Int × Int))
  | 0, _, _ => none
  | fuel + 1, s, e =>
    if e ≤ s then some [(s, e)]
    else
      let bs := if s - 3 < 0 then 0 else s - 3
      let be := if now < e + 3 then now else e + 3
      match probe bs be with
      | none => some [(bs, be)]
      | some pages =>
        if pages < mp then some [(bs, be)]
        else if be - bs ≤ 1 then some [(bs, be)]
        else
          let mid := bs + (be - bs).fdiv 2
          let e1 := if now < mid + 3 then now else mid + 3
          let s2 := if now < mid - 3 then now else mid - 3
          (splitUrlApp probe now mp fuel bs e1).bind (fun r1 =>
            (splitUrlApp probe now mp fuel s2 be).map (fun r2 => r1 ++ r2))

/-- Embedding of `split_url` of `bot.py` (lines 178-211): no buffering, no
minimum-span check; child windows `(s, mid-1)` and `(mid+1, e)`. -/
def splitUrlBot (probe : Int → Int → Option Nat) (mp : Nat) :
    Nat → Int → Int → Option (List (Int × Int))
  | 0, _, _ => none
  | fuel + 1, s, e =>
    match probe s e with
    | none => some [(s, e)]
    | some pages =>
      if pages < mp then some [(s, e)]
      else
        let mid := s + (e - s).fdiv 2
        (splitUrlBot probe mp fuel s (mid - 1)).bind (fun r1 =>
          (splitUrlBot probe mp fuel (mid + 1) e).map (fun r2 => r1 ++ r2))

/-- A probe that always reports 10 result pages. -/
def probeTen : Int → Int → Option Nat := fun _ _ => some 10

/-- C2 (code bug).  On the window `(2010-01-01, 2010-01-10)` (days 0 to 9)
with a probe that always reports 10 pages, `app.py`'s `split_url` never
reaches a base case: re-buffering gives `(day -3, day 12)`, the 2010 clamp
restores day 0, the span is 12 > 1 days, `mid = day 6`, and the first
child window `(day 0, mid + 3 = day 9)` is IDENTICAL to the input, so the
recursion reproduces itself forever (the `total_days <= 1` guard whose
comment reads "Prevent infinite recursion" never fires).  Formally: no
amount of fuel suffices. -/
theorem C2_theorem : ∀ fuel : Nat,
    splitUrlApp probeTen 6000 10 fuel 0 9 = none := by
  intro fuel
  induction fuel with
  | zero => rfl
  | succ n ih =>
    rw [show splitUrlApp probeTen 6000 10 (n + 1) 0 9 =
        (splitUrlApp probeTen 6000 10 n 0 9).bind (fun r1 =>
          (splitUrlApp probeTen 6000 10 n 3 12).map (fun r2 => r1 ++ r2))
      from rfl, ih]
    rfl

/-- C4 (corrected, `app.py` part).  Whenever the recursion of `app.py`'s
`split_url` completes, (1) every returned window either probes under the
page ceiling (or its probe fails, in which case it is returned unsplit by
the failure policy) or spans at most 1 day, and (2) the returned windows
cover the whole buffered, clamped input range `[max(0, s-3), min(now,
e+3)]` — the children `(bs, mid+3)` and `(mid-3, be)` overlap around the
midpoint, so no day of the range is lost.  The `bot.py` variant does NOT
satisfy the claim: see the counterexample. -/
theorem C4_theorem (probe : Int → Int → Option Nat) (now : Int)
    (mp : Nat) :
    ∀ (fuel : Nat) (s e : Int) (ws : List (Int × Int)),
    splitUrlApp probe now mp fuel s e = some ws →
    ((∀ w ∈ ws, (∀ p, probe w.1 w.2 = some p → p < mp) ∨ w.2 - w.1 ≤ 1) ∧
      (s < e → ∀ x : Int, (if s - 3 < 0 then 0 else s - 3) ≤ x →
        x ≤ (if now < e + 3 then now else e + 3) →
        ∃ w ∈ ws, w.1 ≤ x ∧ x ≤ w.2)) := by
  intro fuel
  induction fuel with
  | zero => intro s e ws h; exact absurd h (by simp [splitUrlApp])
  | succ n ih =>
    intro s e ws h
    rw [splitUrlApp] at h
    by_cases h0 : e ≤ s
    · rw [if_pos h0] at h
      injection h with h'
      subst h'
      constructor
      · intro w hw
        rcases List.mem_singleton.mp hw with rfl
        exact Or.inr (by omega)
      · intro hse
        omega
    · rw [if_neg h0] at h
      simp only at h
      set bs := (if s - 3 < 0 then 0 else s - 3) with hbs
      set be := (if now < e + 3 then now else e + 3) with hbe
      have hbs0 : 0 ≤ bs := by rw [hbs]; split <;> omega
      have hben : be ≤ now := by rw [hbe]; split <;> omega
      rcases hpr : probe bs be with _ | pages
      · rw [hpr] at h
        simp only at h
        injection h with h'
        subst h'
        refine ⟨?_, ?_⟩
        · intro w hw
          rcases List.mem_singleton.mp hw with rfl
          exact Or.inl (fun p hp => absurd (hpr ▸ hp) (by simp))
        · intro hse x hx1 hx2
          exact ⟨(bs, be), List.mem_singleton.mpr rfl, hx1, hx2⟩
      · rw [hpr] at h
        simp only at h
        by_cases hpg : pages < mp
        · rw [if_pos hpg] at h
          injection h with h'
          subst h'
          refine ⟨?_, ?_⟩
          · intro w hw
            rcases List.mem_singleton.mp hw with rfl
            exact Or.inl (fun p hp => by
              rw [hpr] at hp
              injection hp with hpe
              exact hpe ▸ hpg)
          · intro hse x hx1 hx2
            exact ⟨(bs, be), List.mem_singleton.mpr rfl, hx1, hx2⟩
        · rw [if_neg hpg] at h
          by_cases hd : be - bs ≤ 1
          · rw [if_pos hd] at h
            injection h with h'
            subst h'
            refine ⟨?_, ?_⟩
            · intro w hw
              rcases List.mem_singleton.mp hw with rfl
              exact Or.inr hd
            · intro hse x hx1 hx2
              exact ⟨(bs, be), List.mem_singleton.mpr rfl, hx1, hx2⟩
          · rw [if_neg hd] at h
            set mid := bs + (be - bs).fdiv 2 with hmid
            have hmidb : bs + 1 ≤ mid ∧ mid ≤ be - 1 := by
              rw [hmid, Int.fdiv_eq_ediv _ (by norm_num : (0 : Int) ≤ 2)]
              omega
            set e1 := (if now < mid + 3 then now else mid + 3) with he1
            set s2 := (if now < mid - 3 then now else mid - 3) with hs2
            rcases hr1 : splitUrlApp probe now mp n bs e1 with _ | r1
            · rw [hr1] at h; exact absurd h (by simp)
            · rcases hr2 : splitUrlApp probe now mp n s2 be with _ | r2
              · rw [hr1, hr2] at h; exact absurd h (by simp)
              · rw [hr1, hr2] at h
                simp only [Option.some_bind, Option.map_some'] at h
                injection h with h'
                subst h'
                obtain ⟨ihA1, ihA2⟩ := ih bs e1 r1 hr1
                obtain ⟨ihB1, ihB2⟩ := ih s2 be r2 hr2
                have he1n : e1 ≤ now := by rw [he1]; split <;> omega
                have hbse1 : bs < e1 := by rw [he1]; split <;> omega
                have hs2m : s2 ≤ mid - 3 := by rw [hs2]; split <;> omega
                have hs2be : s2 < be := by omega
                have hs2e1 : s2 ≤ e1 := by rw [hs2, he1]; split <;> split <;> omega
                refine ⟨?_, ?_⟩
                · intro w hw
                  rcases List.mem_append.mp hw with hw | hw
                  · exact ihA1 w hw
                  · exact ihB1 w hw
                · intro hse x hx1 hx2
                  by_cases hxe1 : x ≤ e1
                  · obtain ⟨w, hwmem, hw1, hw2⟩ :=
                      ihA2 hbse1 x (by split <;> omega) (by split <;> omega)
                    exact ⟨w, List.mem_append.mpr (Or.inl hwmem), hw1, hw2⟩
                  · obtain ⟨w, hwmem, hw1, hw2⟩ :=
                      ihB2 hs2be x (by split <;> omega) (by split <;> omega)
                    exact ⟨w, List.mem_append.mpr (Or.inr hwmem), hw1, hw2⟩

/-- A probe that always reports a single result page. -/
def probeOne : Int → Int → Option Nat := fun _ _ => some 1

/-- Witness for C4: on the window (day 0, day 10) with `now = 100` and a
probe always reporting 1 page, the splitter returns the single buffered
window `(-3 clamped to 0, 13)`, which probes under the ceiling and covers
the buffered range. -/
theorem C4_witness :
    ((∀ w ∈ [((0 : Int), (13 : Int))],
        (∀ p, probeOne w.1 w.2 = some p → p < 10) ∨ w.2 - w.1 ≤ 1) ∧
      ((0 : Int) < 10 → ∀ x : Int,
        (if (0 : Int) - 3 < 0 then 0 else (0 : Int) - 3) ≤ x →
        x ≤ (if (100 : Int) < 10 + 3 then 100 else 10 + 3) →
        ∃ w ∈ [((0 : Int), (13 : Int))], w.1 ≤ x ∧ x ≤ w.2)) :=
  C4_theorem probeOne 100 10 1 0 10 [(0, 13)] (by rfl)

/-- The probe used in the C4 counterexample: the window (day 0, day 20)
reports 10 pages, every other window reports 1 page. -/
def probeBotCex : Int → Int → Option Nat := fun s e =>
  if s == 0 && e == 20 then some 10 else some 1

/-- C4 counterexample (`bot.py` part).  `bot.py`'s `split_url` on the
window (day 0, day 20) with ceiling 10 bisects into children
`(0, mid-1) = (0, 9)` and `(mid+1, 20) = (11, 20)` — NOT the claimed
`(start, mid+3)` / `(mid-3, end)` — and the returned windows leave the
midpoint day 10 of the original range covered by neither window: there is
a 1-day gap instead of a 3-day overlap at the internal boundary. -/
theorem C4_counterexample :
    splitUrlBot probeBotCex 10 2 0 20 = some [(0, 9), (11, 20)] ∧
      ¬ ∃ w ∈ [((0 : Int), (9 : Int)), (11, 20)], w.1 ≤ 10 ∧ 10 ≤ w.2 := by
  constructor
  · rfl
  · decide

/-! ## String primitives used by the Post Extractor

Python string operations on the (ASCII) URLs, titles and names the code
handles: substring containment (`in`), `.lower()`, `.split()`,
`.replace('-', ' ')`, and the two fixed regular expressions
`c\[newer_than\]=(\d{4})-` and `post-(\d+)` as left-to-right scans. -/

/-- Whether the first list is a prefix of the second. -/
def isPrefList : List Char → List Char → Bool
  | [], _ => true
  | _ :: _, [] => false
  | a :: as, b :: bs => a == b && isPrefList as bs

/-- Whether `n` occurs as a contiguous sublist of the second argument
(Python `n in hay`; the empty needle always matches). -/
def listHasSub (n : List Char) : List Char → Bool
  | [] => n.isEmpty
  | c :: t => isPrefList n (c :: t) || listHasSub n t

def strHasSub (hay needle : String) : Bool :=
  listHasSub needle.data hay.data

/-- ASCII lowering, the effect of Python `.lower()` on the ASCII data the
crawler handles. -/
def lowerChar (c : Char) : Char :=
  if 'A' ≤ c && c ≤ 'Z' then Char.ofNat (c.toNat + 32) else c

def toLowerStr (s : String) : String :=
  ⟨s.data.map lowerChar⟩

/-- Helper for `splitWs`: accumulate the current word (reversed). -/
def splitWsGo : List Char → List Char → List String
  | [], acc => if acc.isEmpty then [] else [⟨acc.reverse⟩]
  | c :: t, acc =>
    if c.isWhitespace then
      if acc.isEmpty then splitWsGo t [] else ⟨acc.reverse⟩ :: splitWsGo t []
    else splitWsGo t (c :: acc)

/-- Python `str.split()`: split on whitespace runs, dropping empties. -/
def splitWs (s : String) : List String :=
  splitWsGo s.data []

/-- Python `.replace('-', ' ')`. -/
def replaceDash (s : String) : String :=
  ⟨s.data.map (fun c => if c == '-' then ' ' else c)⟩

/-- Numeric value of a digit string. -/
def digitsVal (ds : List Char) : Nat :=
  ds.foldl (fun a c => a * 10 + (c.toNat - 48)) 0

/-- Maximal leading digit run. -/
def takeDigits : List Char → List Char
  | [] => []
  | c :: t => if c.isDigit then c :: takeDigits t else []

/-- Left-to-right scan for `c\[newer_than\]=(\d{4})-`: at the first
position where the literal is followed by exactly four digits and a dash,
capture the four digits (the behaviour of `re.search` for this pattern). -/
def newerScan : List Char → Option Nat
  | [] => none
  | c :: t =>
    if isPrefList ("c[newer_than]=".data) (c :: t) then
      match (c :: t).drop ("c[newer_than]=".data.length) with
      | d1 :: d2 :: d3 :: d4 :: dash :: _ =>
        if d1.isDigit && d2.isDigit && d3.isDigit && d4.isDigit &&
            dash == '-' then
          some (digitsVal [d1, d2, d3, d4])
        else newerScan t
      | _ => newerScan t
    else newerScan t

/-- Embedding of the search `c\[newer_than\]=(\d{4})-` over the post link
in `process_post` (line 286 of `app.py`, line 251 of `bot.py`). -/
def findNewerYear (link : String) : Option Nat :=
  newerScan link.data

/-- Left-to-right scan for `post-(\d+)`: at the first position where
`"post-"` is followed by at least one digit, capture the maximal digit
run. -/
def postScan : List Char → Option (List Char)
  | [] => none
  | c :: t =>
    if isPrefList ("post-".data) (c :: t) then
      let ds := takeDigits ((c :: t).drop 5)
      if ds.isEmpty then postScan t else some ds
    else postScan t

/-- Embedding of the search `post-(\d+)` over the post link (line 304 of `app.py`); the
captured group is kept as a string since it is re-embedded into
attribute values verbatim. -/
def findPostDigits (link : String) : Option String :=
  (postScan link.data).map (fun ds => ⟨ds⟩)

/-! ## The per-crawl media store and seen-set -/

/-- The three media types of the store (`'images'`, `'videos'`,
`'gifs'`). -/
inductive MT
  | images
  | videos
  | gifs
deriving DecidableEq, Repr

/-- The `global_seen` dictionary: one set of URLs per media type,
modelled as lists with membership via `contains`. -/
structure Seen where
  images : List String
  videos : List String
  gifs : List String
deriving DecidableEq, Repr

def Seen.get (s : Seen) : MT → List String
  | MT.images => s.images
  | MT.videos => s.videos
  | MT.gifs => s.gifs

def Seen.add (s : Seen) (mt : MT) (u : String) : Seen :=
  match mt with
  | MT.images => { s with images := u :: s.images }
  | MT.videos => { s with videos := u :: s.videos }
  | MT.gifs => { s with gifs := u :: s.gifs }

/-- One subject's `media_by_date` dictionary: per media type, an
insertion-ordered mapping from date to the list of URLs recorded under
that date. -/
structure Store where
  images : List (CalDate × List String)
  videos : List (CalDate × List String)
  gifs : List (CalDate × List String)
deriving DecidableEq, Repr

def Store.get (s : Store) : MT → List (CalDate × List String)
  | MT.images => s.images
  | MT.videos => s.videos
  | MT.gifs => s.gifs

def Store.upd (s : Store) (mt : MT)
    (f : List (CalDate × List String) → List (CalDate × List String)) :
    Store :=
  match mt with
  | MT.images => { s with images := f s.images }
  | MT.videos => { s with videos := f s.videos }
  | MT.gifs => { s with gifs := f s.gifs }

/-- Bucket insertion, `media_by_date[media_type][post_date].append(src)` with creation on first use:
append to the date's bucket, creating it at the end on first use
(Python dicts preserve insertion order). -/
def bucketAdd : List (CalDate × List String) → CalDate → String →
    List (CalDate × List String)
  | [], d, u => [(d, [u])]
  | (d', us) :: t, d, u =>
    if d' == d then (d', us ++ [u]) :: t else (d', us) :: bucketAdd t d u

/-- Bucket lookup (`media_by_date[media_type][date]`, empty if absent). -/
def bucketGet : List (CalDate × List String) → CalDate → List String
  | [], _ => []
  | (d', us) :: t, d => if d' == d then us else bucketGet t d

def emptyStore : Store := ⟨[], [], []⟩

def emptySeen : Seen := ⟨[], [], []⟩

/-- The extractor-visible mutable state: one subject's store plus the
crawl-wide seen-set. -/
structure PPState where
  media : Store
  seen : Seen
deriving DecidableEq, Repr

/-- The seen-set-guarded insertion of `process_post` (lines 341-345 of
`app.py` and the two analogous blocks): record the URL only if it is not
in the seen-set for its media type. -/
def addItem (st : PPState) (mt : MT) (d : CalDate) (u : String) : PPState :=
  if u ∈ st.seen.get mt then st
  else
    { media := st.media.upd mt (fun b => bucketAdd b d u),
      seen := st.seen.add mt u }

/-- A candidate media item: media type, date and (normalized) URL. -/
abbrev Item := MT × CalDate × String

def addIt (st : PPState) (it : Item) : PPState :=
  addItem st it.1 it.2.1 it.2.2

/-! ## The Post Extractor (`process_post`)

`process_post` is identical in `app.py` (lines 280-383) and `bot.py`
(lines 245-347).  The fetched and parsed post page is an input: an
`Article` exposes exactly the attributes the code reads from each
`<article>` block, a `Page` the page title plus the article list.
`titleDiv = none` models a page with no `p-title` div (title `''`);
`titleDiv = some none` models a `p-title` div without an `h1` title
value, where `.get_text` on `None` raises and the outer handler returns
with the state untouched. -/

structure Article where
  timeDatetime : Option CalDate
  text : String
  dataAuthor : String
  dataContent : String
  idAttr : String
  imgs : List String
  videos : List String
  sources : List String
deriving DecidableEq, Repr

structure Page where
  titleDiv : Option (Option String)
  articles : List Article
deriving DecidableEq, Repr

/-- Python `s.startswith(pre)` on the ASCII data handled here (list
form, so that concrete instances reduce in the kernel). -/
def strStarts (s pre : String) : Bool :=
  isPrefList pre.data s.data

/-- Python `s.endswith(suf)`. -/
def strEnds (s suf : String) : Bool :=
  isPrefList suf.data.reverse s.data.reverse

/-- The lowercase keyword denylist
`["avatars", "ozzmodz_badges_badge", "premium", "likes"]` checked against
`src.lower()`. -/
def kwReject (ls : String) : Bool :=
  strHasSub ls "avatars" || strHasSub ls "ozzmodz_badges_badge" ||
    strHasSub ls "premium" || strHasSub ls "likes"

/-- The rejection test of the `<img>` loop (lines 337-338 of `app.py`):
note the data-URI test only covers the `"data:image"` prefix. -/
def imgReject (src : String) : Bool :=
  strStarts src "data:image" ||
    strHasSub src "addonflare/awardsystem/icons/" ||
    kwReject (toLowerStr src)

/-- The rejection test of the `<video>`/`<source>` loops (lines 353,
369): any `"data:"` prefix is rejected. -/
def vidReject (src : String) : Bool :=
  strStarts src "data:" ||
    strHasSub src "addonflare/awardsystem/icons/" ||
    kwReject (toLowerStr src)

/-- Source normalization `urljoin(BASE_URL, src) if src.startswith("/") else src`: for
protocol-relative `"//host/..."` sources `urljoin` keeps the host and
prepends the scheme; for other `"/path"` sources it prepends the base
origin. -/
def normSrc (s : String) : String :=
  if strStarts s "//" then "https:" ++ s
  else if strStarts s "/" then "https://desifakes.com" ++ s
  else s

/-- One `<img>` iteration (lines 334-348): classify gif/image by the
lowercased `.gif` suffix, reject site chrome, then do the seen-guarded
insert. -/
def imgStep (d : CalDate) (st : PPState) (s0 : String) : PPState :=
  let src := normSrc s0
  let mt := if strEnds (toLowerStr src) ".gif" then MT.gifs else MT.images
  if imgReject src then st else addItem st mt d src

/-- One `<video>` or `<source>` iteration (lines 350-380; the two loops
have identical bodies). -/
def vidStep (d : CalDate) (st : PPState) (s0 : String) : PPState :=
  let src := normSrc s0
  if vidReject src then st else addItem st MT.videos d src

/-- Date resolution `extract_post_date(article) or the fallback string`: the post's `u-dt`
timestamp when present and parseable, else January 1st of the fallback
year. -/
def articleDate (year : Int) (a : Article) : CalDate :=
  a.timeDatetime.getD ⟨year, 1, 1⟩

/-- Processing of one matched article (lines 324-380): skip the article
if its date's year falls outside the requested range, else scan the three
media carriers in order. -/
def processArticle (startYear endYear year : Int) (a : Article)
    (st : PPState) : PPState :=
  let d := articleDate year a
  if d.y < startYear ∨ endYear < d.y then st
  else
    let st1 := a.imgs.foldl (imgStep d) st
    let st2 := a.videos.foldl (vidStep d) st1
    a.sources.foldl (vidStep d) st2

/-- The `for article in filtered_articles` loop.  A `none` entry (a
`post-<id>` lookup that found no matching article) gets the fallback date
(`extract_post_date` swallows its own exception and returns `None`); if
its year passes the filter, `article.find_all` on `None` raises and the
outer handler ends the loop with the state accumulated so far. -/
def processArticles (startYear endYear year : Int) :
    List (Option Article) → PPState → PPState
  | [], st => st
  | none :: rest, st =>
    if year < startYear ∨ endYear < year then
      processArticles startYear endYear year rest st
    else st
  | some a :: rest, st =>
    processArticles startYear endYear year rest
      (processArticle startYear endYear year a st)

/-- The attribute test of
`soup.find('article', {'data-content': f'post-{g}', 'id': f'js-post-{g}'})`. -/
def articleKeyPred (g : String) (a : Article) : Bool :=
  a.dataContent == "post-" ++ g && a.idAttr == "js-post-" ++ g

/-- Line 305: with a `post-<digits>` marker in the link, the singleton
list holding the first attribute-matching article (or `None`); without
one, all articles of the page. -/
def articlesConsidered (link : String) (arts : List Article) :
    List (Option Article) :=
  match findPostDigits link with
  | some g => [arts.find? (articleKeyPred g)]
  | none => arts.map some

/-- The title-match heuristic (lines 294-302): any whitespace part of the
lowercased username that is a prefix or suffix of the lowercased page
title, or occurs in it after replacing hyphens by spaces. -/
def titleMatches (pageTitle : String) (parts : List String) : Bool :=
  pageTitle != "" && parts.any (fun part =>
    strStarts pageTitle part || strEnds pageTitle part ||
      strHasSub (replaceDash pageTitle) part)

/-- The per-article match of the no-title-match branch (lines 314-319):
the full lowercased username occurs in the article text or in its
`data-author` attribute; Python's `a and (...)` drops a `None` entry. -/
def articleMentions (uLower : String) (oa : Option Article) : Bool :=
  match oa with
  | some a =>
    strHasSub (toLowerStr (a.text)) uLower ||
      strHasSub (toLowerStr (a.dataAuthor)) uLower
  | none => false

/-- Article selection of `process_post` (lines 289-322): resolve the page
title, evaluate the title-match heuristic, restrict to the
`post-<digits>` article when the link carries a marker, and with no title
match keep only articles mentioning the username.  An empty result models
the code paths that return before the article loop. -/
def chosenArticles (link username : String) (page : Page) :
    List (Option Article) :=
  match page.titleDiv with
  | some none => []
  | td =>
    let pageTitle := match td with
      | some (some t) => toLowerStr t
      | _ => ""
    let uLower := toLowerStr username
    let tm := titleMatches pageTitle (splitWs uLower)
    let arts0 := articlesConsidered link page.articles
    if arts0.isEmpty then []
    else if tm then arts0
    else arts0.filter (articleMentions uLower)

/-- The fallback year (lines 286-287): the 4-digit year of a
`c[newer_than]=YYYY-` marker in the post link itself when present, else
`end_year`. -/
def fallbackYear (link : String) (endYear : Int) : Int :=
  match findNewerYear link with
  | some n => (n : Int)
  | none => endYear

/-- Embedding of `process_post(post_link, username, start_year, end_year,
media_by_date, global_seen)` with the fetched page as input: select the
articles, then run the extraction loop. -/
def process_post (link username : String) (startYear endYear : Int)
    (page : Page) (st : PPState) : PPState :=
  processArticles startYear endYear (fallbackYear link endYear)
    (chosenArticles link username page) st

/-! ## Candidate items and provenance

The candidate media items an article contributes are fully determined by
the page and the call arguments — never by the mutable state — which is
what makes the seen-set reduction idempotent and commutative.  The item
lists below recompute the loop's candidates; the lemmas relate them to
the stateful folds. -/

/-- The candidate produced by one `<img>` source, `none` when
rejected. -/
def imgItem (d : CalDate) (s0 : String) : Option Item :=
  let src := normSrc s0
  let mt := if strEnds (toLowerStr src) ".gif" then MT.gifs else MT.images
  if imgReject src then none else some (mt, d, src)

/-- The candidate produced by one `<video>`/`<source>` source. -/
def vidItem (d : CalDate) (s0 : String) : Option Item :=
  let src := normSrc s0
  if vidReject src then none else some (MT.videos, d, src)

/-- All candidates of one article, in scan order. -/
def articleItems (startYear endYear year : Int) (a : Article) :
    List Item :=
  let d := articleDate year a
  if d.y < startYear ∨ endYear < d.y then []
  else
    a.imgs.filterMap (imgItem d) ++ a.videos.filterMap (vidItem d) ++
      a.sources.filterMap (vidItem d)

/-- All candidates the article loop actually reaches (a `none` article
whose fallback year passes the filter aborts the rest of the loop). -/
def consideredItems (startYear endYear year : Int) :
    List (Option Article) → List Item
  | [] => []
  | none :: rest =>
    if year < startYear ∨ endYear < year then
      consideredItems startYear endYear year rest
    else []
  | some a :: rest =>
    articleItems startYear endYear year a ++
      consideredItems startYear endYear year rest

/-! ## Basic lemmas about the store operations -/

theorem foldl_pres {α : Type} {β : Type} (P : α → Prop) (f : α → β → α)
    (hf : ∀ st x, P st → P (f st x)) :
    ∀ (l : List β) (st : α), P st → P (l.foldl f st)
  | [], _, h => h
  | x :: t, st, h => foldl_pres P f hf t (f st x) (hf st x h)

theorem Seen.get_add (s : Seen) (mt : MT) (u : String) (mt' : MT) :
    (s.add mt u).get mt' =
      if mt' = mt then u :: s.get mt else s.get mt' := by
  cases mt <;> cases mt' <;> simp [Seen.add, Seen.get]

theorem Store.get_upd (s : Store) (mt : MT)
    (f : List (CalDate × List String) → List (CalDate × List String))
    (mt' : MT) :
    (s.upd mt f).get mt' = if mt' = mt then f (s.get mt) else s.get mt' := by
  cases mt <;> cases mt' <;> simp [Store.upd, Store.get]

theorem addIt_seen_mono {st : PPState} {mt : MT} {u : String}
    (h : u ∈ st.seen.get mt) (it : Item) :
    u ∈ (addIt st it).seen.get mt := by
  unfold addIt addItem
  split
  · exact h
  · simp only [Seen.get_add]
    split
    · next he => exact List.mem_cons_of_mem _ (he ▸ h)
    · exact h

theorem addIt_self_seen (st : PPState) (it : Item) :
    it.2.2 ∈ (addIt st it).seen.get it.1 := by
  unfold addIt addItem
  split
  · next h => exact h
  · simp [Seen.get_add]

theorem addIt_noop {st : PPState} {it : Item}
    (h : it.2.2 ∈ st.seen.get it.1) : addIt st it = st := by
  unfold addIt addItem
  exact if_pos h

theorem foldl_addIt_seen_mono {mt : MT} {u : String} (l : List Item)
    (st : PPState) (h : u ∈ st.seen.get mt) :
    u ∈ (l.foldl addIt st).seen.get mt :=
  foldl_pres (fun s => u ∈ s.seen.get mt) addIt
    (fun _ it hh => addIt_seen_mono hh it) l st h

theorem foldl_addIt_allSeen :
    ∀ (l : List Item) (st : PPState) (it : Item), it ∈ l →
      it.2.2 ∈ (l.foldl addIt st).seen.get it.1
  | x :: t, st, it, h => by
    rw [List.foldl_cons]
    rcases List.mem_cons.mp h with rfl | h'
    · exact foldl_addIt_seen_mono t (addIt st it) (addIt_self_seen st it)
    · exact foldl_addIt_allSeen t (addIt st x) it h'

theorem foldl_addIt_noop :
    ∀ (l : List Item) (st : PPState),
      (∀ it ∈ l, it.2.2 ∈ st.seen.get it.1) → l.foldl addIt st = st
  | [], _, _ => rfl
  | x :: t, st, h => by
    rw [List.foldl_cons, addIt_noop (h x (List.mem_cons_self x t))]
    exact foldl_addIt_noop t st (fun it hit => h it (List.mem_cons_of_mem x hit))

/-! ## The stateful loops as folds over the candidate items -/

theorem imgStep_eq (d : CalDate) (st : PPState) (s0 : String) :
    imgStep d st s0 = match imgItem d s0 with
      | none => st
      | some it => addIt st it := by
  by_cases hr : imgReject (normSrc s0) <;> simp [imgStep, imgItem, addIt, hr]

theorem vidStep_eq (d : CalDate) (st : PPState) (s0 : String) :
    vidStep d st s0 = match vidItem d s0 with
      | none => st
      | some it => addIt st it := by
  by_cases hr : vidReject (normSrc s0) <;> simp [vidStep, vidItem, addIt, hr]

theorem foldl_step_filterMap {β : Type} (f : PPState → β → PPState)
    (h : β → Option Item)
    (hf : ∀ st x, f st x = match h x with
      | none => st
      | some it => addIt st it) :
    ∀ (l : List β) (st : PPState),
      l.foldl f st = (l.filterMap h).foldl addIt st := by
  intro l
  induction l with
  | nil => intro st; rfl
  | cons x t ih =>
    intro st
    rw [List.foldl_cons, hf st x, List.filterMap_cons]
    cases hx : h x
    · exact ih st
    · rw [List.foldl_cons]
      exact ih _

theorem processArticle_eq (sy ey yr : Int) (a : Article) (st : PPState) :
    processArticle sy ey yr a st = (articleItems sy ey yr a).foldl addIt st := by
  unfold processArticle articleItems
  dsimp only
  split
  · rfl
  · rw [List.foldl_append, List.foldl_append,
      foldl_step_filterMap _ _ (imgStep_eq (articleDate yr a)),
      foldl_step_filterMap _ _ (vidStep_eq (articleDate yr a)),
      foldl_step_filterMap _ _ (vidStep_eq (articleDate yr a))]

theorem processArticles_seen_mono (sy ey yr : Int) (mt : MT) (u : String)
    (l : List (Option Article)) :
    ∀ (st : PPState), u ∈ st.seen.get mt →
      u ∈ (processArticles sy ey yr l st).seen.get mt := by
  induction l with
  | nil => intro st h; exact h
  | cons oa rest ih =>
    intro st h
    cases oa with
    | none =>
      unfold processArticles
      split
      · exact ih st h
      · exact h
    | some a =>
      unfold processArticles
      exact ih _ (by rw [processArticle_eq]; exact foldl_addIt_seen_mono _ _ h)

theorem processArticles_allSeen (sy ey yr : Int) (l : List (Option Article)) :
    ∀ (st : PPState) (it : Item), it ∈ consideredItems sy ey yr l →
      it.2.2 ∈ (processArticles sy ey yr l st).seen.get it.1 := by
  induction l with
  | nil => intro st it h; exact absurd h (List.not_mem_nil it)
  | cons oa rest ih =>
    intro st it h
    cases oa with
    | none =>
      unfold processArticles
      unfold consideredItems at h
      by_cases hc : yr < sy ∨ ey < yr
      · rw [if_pos hc] at h
        rw [if_pos hc]
        exact ih st it h
      · rw [if_neg hc] at h
        exact absurd h (List.not_mem_nil it)
    | some a =>
      unfold processArticles
      unfold consideredItems at h
      rcases List.mem_append.mp h with h' | h'
      · refine processArticles_seen_mono sy ey yr it.1 it.2.2 rest _ ?_
        rw [processArticle_eq]
        exact foldl_addIt_allSeen _ st it h'
      · exact ih _ it h'

theorem processArticles_noop (sy ey yr : Int) (l : List (Option Article)) :
    ∀ (st : PPState),
      (∀ it ∈ consideredItems sy ey yr l, it.2.2 ∈ st.seen.get it.1) →
      processArticles sy ey yr l st = st := by
  induction l with
  | nil => intro st _; rfl
  | cons oa rest ih =>
    intro st h
    cases oa with
    | none =>
      unfold processArticles
      split
      · next hc =>
        exact ih st (fun it hit => h it (by
          unfold consideredItems
          rw [if_pos hc]
          exact hit))
      · rfl
    | some a =>
      unfold processArticles
      have hA : processArticle sy ey yr a st = st := by
        rw [processArticle_eq]
        exact foldl_addIt_noop _ st (fun it hit => h it (by
          unfold consideredItems
          exact List.mem_append.mpr (Or.inl hit)))
      rw [hA]
      exact ih st (fun it hit => h it (by
        unfold consideredItems
        exact List.mem_append.mpr (Or.inr hit)))

theorem processArticles_idem (sy ey yr : Int) (l : List (Option Article))
    (st : PPState) :
    processArticles sy ey yr l (processArticles sy ey yr l st) =
      processArticles sy ey yr l st :=
  processArticles_noop sy ey yr l _
    (fun it hit => processArticles_allSeen sy ey yr l st it hit)

/-! ## Counting stored URLs and the global-uniqueness invariant -/

/-- Total number of occurrences of a URL across all date buckets. -/
def bucketCount : List (CalDate × List String) → String → Nat
  | [], _ => 0
  | (_, us) :: t, u => us.count u + bucketCount t u

def storeCount (s : Store) (mt : MT) (u : String) : Nat :=
  bucketCount (s.get mt) u

theorem bucketCount_bucketAdd (b : List (CalDate × List String))
    (d : CalDate) (u u' : String) :
    bucketCount (bucketAdd b d u) u' =
      bucketCount b u' + (if u = u' then 1 else 0) := by
  induction b with
  | nil =>
    simp only [bucketAdd, bucketCount, List.count_nil, List.count_cons]
    simp [beq_iff_eq]
  | cons p t ih =>
    obtain ⟨d', us⟩ := p
    unfold bucketAdd
    split
    · simp only [bucketCount, List.count_append, List.count_cons,
        List.count_nil]
      simp only [beq_iff_eq]
      omega
    · simp only [bucketCount, ih]
      omega

/-- The crawl-wide invariant: relative to an ambient count `R` (URLs
stored in other subjects' stores), every URL is stored at most once, and
only if it is in the seen-set. -/
def InvW (R : MT → String → Nat) (pst : PPState) : Prop :=
  ∀ mt u, R mt u + storeCount pst.media mt u ≤
    (if u ∈ pst.seen.get mt then 1 else 0)

theorem invW_addIt (R : MT → String → Nat) (st : PPState) (it : Item)
    (h : InvW R st) : InvW R (addIt st it) := by
  intro mt u
  unfold addIt addItem
  split
  · exact h mt u
  · next hns =>
    have hsc : storeCount
        (st.media.upd it.1 (fun b => bucketAdd b it.2.1 it.2.2)) mt u =
        storeCount st.media mt u +
          (if mt = it.1 ∧ it.2.2 = u then 1 else 0) := by
      unfold storeCount
      rw [Store.get_upd]
      by_cases hm : mt = it.1
      · rw [if_pos hm, bucketCount_bucketAdd]
        by_cases hu : it.2.2 = u
        · simp [hm, hu]
        · simp [hm, hu]
      · rw [if_neg hm]
        simp [hm]
    simp only [hsc, Seen.get_add]
    have h0 := h mt u
    by_cases hm : mt = it.1
    · rw [if_pos hm]
      by_cases hu : it.2.2 = u
      · have hmem_new : u ∈ it.2.2 :: st.seen.get it.1 := by
          rw [← hu]; exact List.mem_cons_self _ _
        have hcond : (if mt = it.1 ∧ it.2.2 = u then 1 else 0) = 1 :=
          if_pos ⟨hm, hu⟩
        have hold : (if u ∈ st.seen.get mt then 1 else 0) = 0 := by
          rw [if_neg]
          intro hmem
          apply hns
          rw [hm] at hmem
          rw [hu]
          exact hmem
        rw [hcond, if_pos hmem_new]
        rw [hold] at h0
        omega
      · have hcond : (if mt = it.1 ∧ it.2.2 = u then 1 else 0) = 0 := by
          simp [hu]
        rw [hcond]
        by_cases ho : u ∈ st.seen.get it.1
        · rw [if_pos (List.mem_cons_of_mem _ ho)]
          rw [if_pos (show u ∈ st.seen.get mt by rw [hm]; exact ho)] at h0
          omega
        · have hnm : ¬ u ∈ it.2.2 :: st.seen.get it.1 := by
            intro hcon
            rcases List.mem_cons.mp hcon with rfl | hcon
            · exact hu rfl
            · exact ho hcon
          rw [if_neg hnm]
          rw [if_neg (show ¬ u ∈ st.seen.get mt by rw [hm]; exact ho)] at h0
          omega
    · have hcond : (if mt = it.1 ∧ it.2.2 = u then 1 else 0) = 0 := by
        simp [hm]
      rw [hcond, if_neg hm]
      omega

theorem invW_foldl_addIt (R : MT → String → Nat) (l : List Item)
    (st : PPState) (h : InvW R st) : InvW R (l.foldl addIt st) :=
  foldl_pres (InvW R) addIt (fun s it hh => invW_addIt R s it hh) l st h

theorem invW_processArticles (R : MT → String → Nat) (sy ey yr : Int)
    (l : List (Option Article)) :
    ∀ (st : PPState), InvW R st →
      InvW R (processArticles sy ey yr l st) := by
  induction l with
  | nil => intro st h; exact h
  | cons oa rest ih =>
    intro st h
    cases oa with
    | none =>
      unfold processArticles
      split
      · exact ih st h
      · exact h
    | some a =>
      unfold processArticles
      refine ih _ ?_
      rw [processArticle_eq]
      exact invW_foldl_addIt R _ st h

theorem invW_process_post (R : MT → String → Nat) (link username : String)
    (sy ey : Int) (page : Page) (st : PPState) (h : InvW R st) :
    InvW R (process_post link username sy ey page st) :=
  invW_processArticles R sy ey (fallbackYear link ey)
    (chosenArticles link username page) st h

/-- C8 (confirmed).  The Post Extractor is idempotent with respect to the
seen-set: running `process_post` a second time on the same post page with
the state left by the first run changes nothing — the candidate items are
computed from the page alone, the first run put each of them into the
seen-set, and the seen-set check is the sole gate for insertion.
Consequently a store built from the empty state holds each URL at most
once per media type. -/
theorem C8_theorem : ∀ (link username : String) (startYear endYear : Int)
    (page : Page) (st : PPState),
    process_post link username startYear endYear page
        (process_post link username startYear endYear page st) =
      process_post link username startYear endYear page st ∧
    ∀ (mt : MT) (u : String),
      storeCount (process_post link username startYear endYear page
        ⟨emptyStore, emptySeen⟩).media mt u ≤ 1 := by
  intro link un sy ey page st
  constructor
  · unfold process_post
    exact processArticles_idem sy ey (fallbackYear link ey)
      (chosenArticles link un page) st
  · intro mt u
    have h0 : InvW (fun _ _ => 0) ⟨emptyStore, emptySeen⟩ := by
      intro mt' u'
      show 0 + storeCount emptyStore mt' u' ≤ _
      have hz : storeCount emptyStore mt' u' = 0 := by cases mt' <;> rfl
      rw [hz]
      exact Nat.zero_le _
    have h1 := invW_process_post (fun _ _ => 0) link un sy ey page
      ⟨emptyStore, emptySeen⟩ h0 mt u
    have h2 : (if u ∈ (process_post link un sy ey page
        ⟨emptyStore, emptySeen⟩).seen.get mt then 1 else 0) ≤ 1 := by
      split <;> omega
    omega

/-! ## Provenance of stored items -/

/-- URL `u` is recorded in store `s` under media type `mt` and date `d`. -/
def StoredAt (s : Store) (mt : MT) (d : CalDate) (u : String) : Prop :=
  u ∈ bucketGet (s.get mt) d

instance (s : Store) (mt : MT) (d : CalDate) (u : String) :
    Decidable (StoredAt s mt d u) :=
  inferInstanceAs (Decidable (u ∈ bucketGet (s.get mt) d))

theorem mem_bucketGet_bucketAdd {b : List (CalDate × List String)}
    {d' : CalDate} {u' : String} {d : CalDate} {u : String}
    (h : u ∈ bucketGet (bucketAdd b d' u') d) :
    u ∈ bucketGet b d ∨ (d = d' ∧ u = u') := by
  induction b with
  | nil =>
    unfold bucketAdd bucketGet at h
    split at h
    · next he =>
      right
      refine ⟨(beq_iff_eq.mp he).symm, ?_⟩
      simpa using h
    · exact absurd h (List.not_mem_nil u)
  | cons p t ih =>
    obtain ⟨dc, us⟩ := p
    unfold bucketAdd at h
    split at h
    · next he =>
      unfold bucketGet at h
      split at h
      · next he2 =>
        rcases List.mem_append.mp h with h' | h'
        · left
          unfold bucketGet
          rw [if_pos he2]
          exact h'
        · right
          have h1 : dc = d := beq_iff_eq.mp he2
          have h0 : dc = d' := beq_iff_eq.mp he
          exact ⟨h1 ▸ h0, by simpa using h'⟩
      · next he2 =>
        left
        unfold bucketGet
        rw [if_neg he2]
        exact h
    · next he =>
      unfold bucketGet at h
      split at h
      · next he2 =>
        left
        unfold bucketGet
        rw [if_pos he2]
        exact h
      · next he2 =>
        rcases ih h with h' | h'
        · left
          unfold bucketGet
          rw [if_neg he2]
          exact h'
        · exact Or.inr h'

theorem storedAt_addIt {st : PPState} {it : Item} {mt : MT} {d : CalDate}
    {u : String} (h : StoredAt (addIt st it).media mt d u) :
    StoredAt st.media mt d u ∨ (mt, d, u) = it := by
  unfold addIt addItem at h
  split at h
  · exact Or.inl h
  · unfold StoredAt at h ⊢
    rw [Store.get_upd] at h
    split at h
    · next hm =>
      rcases mem_bucketGet_bucketAdd h with h' | h'
      · left
        rw [hm]
        exact h'
      · right
        show (mt, d, u) = (it.1, it.2.1, it.2.2)
        rw [hm, h'.1, h'.2]
    · next hm => exact Or.inl h

theorem foldl_addIt_stored :
    ∀ (l : List Item) (st : PPState) (mt : MT) (d : CalDate) (u : String),
      StoredAt (l.foldl addIt st).media mt d u →
      StoredAt st.media mt d u ∨ (mt, d, u) ∈ l
  | [], _, _, _, _, h => Or.inl h
  | x :: t, st, mt, d, u, h => by
    rw [List.foldl_cons] at h
    rcases foldl_addIt_stored t (addIt st x) mt d u h with h' | h'
    · rcases storedAt_addIt h' with h'' | h''
      · exact Or.inl h''
      · exact Or.inr (h'' ▸ List.mem_cons_self x t)
    · exact Or.inr (List.mem_cons_of_mem x h')

theorem processArticles_stored (sy ey yr : Int) (l : List (Option Article)) :
    ∀ (st : PPState) (mt : MT) (d : CalDate) (u : String),
      StoredAt (processArticles sy ey yr l st).media mt d u →
      StoredAt st.media mt d u ∨ (mt, d, u) ∈ consideredItems sy ey yr l := by
  induction l with
  | nil => intro st mt d u h; exact Or.inl h
  | cons oa rest ih =>
    intro st mt d u h
    cases oa with
    | none =>
      unfold processArticles at h
      unfold consideredItems
      split at h
      · next hc =>
        rw [if_pos hc]
        exact ih st mt d u h
      · next hc =>
        rw [if_neg hc]
        exact Or.inl h
    | some a =>
      unfold processArticles at h
      unfold consideredItems
      rcases ih _ mt d u h with h' | h'
      · rw [processArticle_eq] at h'
        rcases foldl_addIt_stored _ st mt d u h' with h'' | h''
        · exact Or.inl h''
        · exact Or.inr (List.mem_append.mpr (Or.inl h''))
      · exact Or.inr (List.mem_append.mpr (Or.inr h'))

theorem consideredItems_src (sy ey yr : Int) (l : List (Option Article)) :
    ∀ it : Item, it ∈ consideredItems sy ey yr l →
      ∃ a, some a ∈ l ∧ it ∈ articleItems sy ey yr a := by
  induction l with
  | nil => intro it h; exact absurd h (List.not_mem_nil it)
  | cons oa rest ih =>
    intro it h
    cases oa with
    | none =>
      unfold consideredItems at h
      split at h
      · obtain ⟨a, ha, hi⟩ := ih it h
        exact ⟨a, List.mem_cons_of_mem _ ha, hi⟩
      · exact absurd h (List.not_mem_nil it)
    | some a =>
      unfold consideredItems at h
      rcases List.mem_append.mp h with h' | h'
      · exact ⟨a, List.mem_cons_self _ _, h'⟩
      · obtain ⟨a', ha', hi'⟩ := ih it h'
        exact ⟨a', List.mem_cons_of_mem _ ha', hi'⟩

theorem imgItem_spec (d : CalDate) (s0 : String) (it : Item)
    (h : imgItem d s0 = some it) :
    it.2.1 = d ∧ imgReject it.2.2 = false ∧
      (it.1 = MT.gifs ∨ it.1 = MT.images) := by
  unfold imgItem at h
  dsimp only at h
  split at h
  · exact absurd h (by simp)
  · next hr =>
    injection h with h'
    subst h'
    refine ⟨rfl, by simpa using hr, ?_⟩
    dsimp only
    split
    · exact Or.inl rfl
    · exact Or.inr rfl

theorem vidItem_spec (d : CalDate) (s0 : String) (it : Item)
    (h : vidItem d s0 = some it) :
    it.2.1 = d ∧ vidReject it.2.2 = false ∧ it.1 = MT.videos := by
  unfold vidItem at h
  dsimp only at h
  split at h
  · exact absurd h (by simp)
  · next hr =>
    injection h with h'
    subst h'
    exact ⟨rfl, by simpa using hr, rfl⟩

theorem articleItems_spec (sy ey yr : Int) (a : Article) (it : Item)
    (h : it ∈ articleItems sy ey yr a) :
    it.2.1 = articleDate yr a ∧
      ((it.1 = MT.videos ∧ vidReject it.2.2 = false) ∨
        ((it.1 = MT.gifs ∨ it.1 = MT.images) ∧ imgReject it.2.2 = false)) := by
  unfold articleItems at h
  dsimp only at h
  split at h
  · exact absurd h (List.not_mem_nil it)
  · rcases List.mem_append.mp h with h' | h'
    · rcases List.mem_append.mp h' with h'' | h''
      · obtain ⟨s0, _, hs⟩ := List.mem_filterMap.mp h''
        obtain ⟨h1, h2, h3⟩ := imgItem_spec _ s0 it hs
        exact ⟨h1, Or.inr ⟨h3, h2⟩⟩
      · obtain ⟨s0, _, hs⟩ := List.mem_filterMap.mp h''
        obtain ⟨h1, h2, h3⟩ := vidItem_spec _ s0 it hs
        exact ⟨h1, Or.inl ⟨h3, h2⟩⟩
    · obtain ⟨s0, _, hs⟩ := List.mem_filterMap.mp h'
      obtain ⟨h1, h2, h3⟩ := vidItem_spec _ s0 it hs
      exact ⟨h1, Or.inl ⟨h3, h2⟩⟩

/-- C7 (corrected).  Every newly stored item's date is either the
article's extracted publish date or the fallback `(year, 1, 1)` — but the
fallback `year` is `fallbackYear link endYear`: the 4-digit year of a
`c[newer_than]=` marker found in the POST LINK itself when present, and
`end_year` otherwise.  `process_post` never sees the originating window,
so the fallback is not in general the window's year. -/
theorem C7_theorem : ∀ (link username : String) (startYear endYear : Int)
    (page : Page) (st : PPState) (mt : MT) (d : CalDate) (u : String),
    StoredAt (process_post link username startYear endYear page st).media
      mt d u →
    StoredAt st.media mt d u ∨
      ∃ a, some a ∈ chosenArticles link username page ∧
        d = articleDate (fallbackYear link endYear) a := by
  intro link un sy ey page st mt d u h
  unfold process_post at h
  rcases processArticles_stored sy ey (fallbackYear link ey)
      (chosenArticles link un page) st mt d u h with h' | h'
  · exact Or.inl h'
  · obtain ⟨a, ha, hi⟩ := consideredItems_src sy ey (fallbackYear link ey)
      (chosenArticles link un page) (mt, d, u) h'
    obtain ⟨h1, _⟩ := articleItems_spec sy ey (fallbackYear link ey) a
      (mt, d, u) hi
    exact Or.inr ⟨a, ha, h1⟩

/-- Article without a parseable `u-dt` timestamp, carrying one content
image. -/
def artNoDate : Article :=
  { timeDatetime := none, text := "", dataAuthor := "", dataContent := "",
    idAttr := "", imgs := ["https://x/b.jpg"], videos := [], sources := [] }

def pageNoDate : Page :=
  { titleDiv := some (some "jane doe"), articles := [artNoDate] }

/-- A search URL of the originating window, with year 2020 in its
`c[newer_than]` parameter. -/
def windowUrlC7 : String :=
  "https://desifakes.com/search/40169483/?q=jane+doe&c[newer_than]=2020-01-13&c[older_than]=2020-02-03&c[title_only]=0&o=date"

/-- C7 counterexample.  A post link scraped from a 2020 window carries no
`c[newer_than]` marker of its own, so with `end_year = 2025` the
undateable image is stored under `2025-01-01` — not under the originating
window's year 2020 as the claim requires. -/
theorem C7_counterexample :
    StoredAt (process_post "https://desifakes.com/threads/jane.9/"
        "jane doe" 2010 2025 pageNoDate ⟨emptyStore, emptySeen⟩).media
        MT.images ⟨2025, 1, 1⟩ "https://x/b.jpg" ∧
      findNewerYear windowUrlC7 = some 2020 ∧
      ¬ StoredAt (process_post "https://desifakes.com/threads/jane.9/"
        "jane doe" 2010 2025 pageNoDate ⟨emptyStore, emptySeen⟩).media
        MT.images ⟨2020, 1, 1⟩ "https://x/b.jpg" := by
  refine ⟨by decide, by rfl, by decide⟩

/-- Article with a real publish date for the C7 witness. -/
def artWit7 : Article :=
  { timeDatetime := some ⟨2021, 7, 9⟩, text := "", dataAuthor := "",
    dataContent := "", idAttr := "", imgs := ["https://x/w.jpg"],
    videos := [], sources := [] }

def pageWit7 : Page :=
  { titleDiv := some (some "ann lee"), articles := [artWit7] }

/-- Witness for C7 at a concrete stored item. -/
theorem C7_witness :
    StoredAt (⟨emptyStore, emptySeen⟩ : PPState).media MT.images
        ⟨2021, 7, 9⟩ "https://x/w.jpg" ∨
      ∃ a, some a ∈ chosenArticles "https://desifakes.com/threads/a.1/"
          "ann lee" pageWit7 ∧
        (⟨2021, 7, 9⟩ : CalDate) =
          articleDate
            (fallbackYear "https://desifakes.com/threads/a.1/" 2030) a :=
  C7_theorem "https://desifakes.com/threads/a.1/" "ann lee" 2010 2030
    pageWit7 ⟨emptyStore, emptySeen⟩ MT.images ⟨2021, 7, 9⟩
    "https://x/w.jpg" (by decide)

/-- The data-URI prefix each media carrier rejects: the `<img>` loop only
rejects `"data:image"`-prefixed URLs, the `<video>`/`<source>` loops any
`"data:"` prefix. -/
def dataReject : MT → String → Bool
  | MT.videos, u => strStarts u "data:"
  | MT.images, u => strStarts u "data:image"
  | MT.gifs, u => strStarts u "data:image"

/-- C9 (corrected).  Every newly stored URL is free of all five
denylisted substrings (`"addonflare/awardsystem/icons/"` case-sensitive,
the other four against the lowercased URL), and is not rejected by its
carrier's data-URI test — which for images/gifs only covers the
`"data:image"` prefix, so non-image data-URIs in `<img>` tags ARE
stored (see the counterexample). -/
theorem C9_theorem : ∀ (link username : String) (startYear endYear : Int)
    (page : Page) (st : PPState) (mt : MT) (d : CalDate) (u : String),
    StoredAt (process_post link username startYear endYear page st).media
      mt d u →
    StoredAt st.media mt d u ∨
      (kwReject (toLowerStr u) = false ∧
        strHasSub u "addonflare/awardsystem/icons/" = false ∧
        dataReject mt u = false) := by
  intro link un sy ey page st mt d u h
  unfold process_post at h
  rcases processArticles_stored sy ey (fallbackYear link ey)
      (chosenArticles link un page) st mt d u h with h' | h'
  · exact Or.inl h'
  · obtain ⟨a, _, hi⟩ := consideredItems_src sy ey (fallbackYear link ey)
      (chosenArticles link un page) (mt, d, u) h'
    obtain ⟨_, h2⟩ := articleItems_spec sy ey (fallbackYear link ey) a
      (mt, d, u) hi
    right
    rcases h2 with ⟨hmt, hrej⟩ | ⟨hmt, hrej⟩
    · unfold vidReject at hrej
      rw [Bool.or_eq_false_iff, Bool.or_eq_false_iff] at hrej
      obtain ⟨⟨ha, hb⟩, hc⟩ := hrej
      refine ⟨hc, hb, ?_⟩
      rw [show mt = MT.videos from hmt]
      exact ha
    · unfold imgReject at hrej
      rw [Bool.or_eq_false_iff, Bool.or_eq_false_iff] at hrej
      obtain ⟨⟨ha, hb⟩, hc⟩ := hrej
      refine ⟨hc, hb, ?_⟩
      rcases hmt with hmt | hmt
      · rw [show mt = MT.gifs from hmt]
        exact ha
      · rw [show mt = MT.images from hmt]
        exact ha

/-- Article carrying a non-image data-URI in an `<img>` tag. -/
def artDataUri : Article :=
  { timeDatetime := some ⟨2020, 5, 5⟩, text := "", dataAuthor := "",
    dataContent := "", idAttr := "", imgs := ["data:text/plain,a"],
    videos := [], sources := [] }

def pageDataUri : Page :=
  { titleDiv := some (some "jane doe"), articles := [artDataUri] }

/-- C9 counterexample.  The data-URI `"data:text/plain,a"` in an `<img>`
tag is stored as an image: the `<img>` rejection only tests the
`"data:image"` prefix, so a data-URI that is not an image data-URI
reaches the store, contradicting "no candidate URL that is a data-URI is
ever appended". -/
theorem C9_counterexample :
    StoredAt (process_post "https://desifakes.com/threads/t.1/" "jane doe"
        2010 2030 pageDataUri ⟨emptyStore, emptySeen⟩).media MT.images
        ⟨2020, 5, 5⟩ "data:text/plain,a" ∧
      strStarts "data:text/plain,a" "data:" = true := by
  refine ⟨by decide, by rfl⟩

/-- Article with one ordinary video for the C9 witness. -/
def artClean : Article :=
  { timeDatetime := some ⟨2022, 3, 4⟩, text := "", dataAuthor := "",
    dataContent := "", idAttr := "", imgs := [],
    videos := ["https://x/v.mp4"], sources := [] }

def pageClean : Page :=
  { titleDiv := some (some "bo kim"), articles := [artClean] }

/-- Witness for C9 at a concrete stored video. -/
theorem C9_witness :
    StoredAt (⟨emptyStore, emptySeen⟩ : PPState).media MT.videos
        ⟨2022, 3, 4⟩ "https://x/v.mp4" ∨
      (kwReject (toLowerStr "https://x/v.mp4") = false ∧
        strHasSub "https://x/v.mp4" "addonflare/awardsystem/icons/" = false ∧
        dataReject MT.videos "https://x/v.mp4" = false) :=
  C9_theorem "https://desifakes.com/threads/b.3/" "bo kim" 2010 2030
    pageClean ⟨emptyStore, emptySeen⟩ MT.videos ⟨2022, 3, 4⟩
    "https://x/v.mp4" (by decide)

/-- C10 (confirmed).  When the post link carries a `post-<digits>`
marker, `process_post` behaves exactly as if the page contained only the
first article whose `data-content` is `post-<digits>` and whose `id` is
`js-post-<digits>` — every other article is ignored even if it matches
the subject.  Without a marker, the considered blocks are all the page's
articles. -/
theorem C10_theorem : ∀ (link username : String) (startYear endYear : Int)
    (page : Page) (st : PPState),
    (∀ g, findPostDigits link = some g →
      process_post link username startYear endYear page st =
        process_post link username startYear endYear
          { page with articles :=
              (page.articles.find? (articleKeyPred g)).toList } st) ∧
    (findPostDigits link = none →
      articlesConsidered link page.articles = page.articles.map some) := by
  intro link un sy ey page st
  obtain ⟨td, arts⟩ := page
  constructor
  · intro g hg
    have hfind : ∀ (p : Article → Bool) (l : List Article),
        ((l.find? p).toList).find? p = l.find? p := by
      intro p l
      cases hf : l.find? p with
      | none => rfl
      | some a =>
        have hpa := List.find?_some hf
        show List.find? p [a] = some a
        rw [List.find?_cons_of_pos _ hpa]
    have harts : articlesConsidered link
        ((arts.find? (articleKeyPred g)).toList) =
        articlesConsidered link arts := by
      unfold articlesConsidered
      rw [hg]
      dsimp only
      rw [hfind]
    have hch : chosenArticles link un
        { titleDiv := td, articles := (arts.find? (articleKeyPred g)).toList } =
        chosenArticles link un { titleDiv := td, articles := arts } := by
      unfold chosenArticles
      cases td with
      | none =>
        dsimp only
        rw [harts]
      | some o =>
        cases o with
        | none => rfl
        | some t =>
          dsimp only
          rw [harts]
    show process_post link un sy ey { titleDiv := td, articles := arts } st =
      process_post link un sy ey
        { titleDiv := td,
          articles := (arts.find? (articleKeyPred g)).toList } st
    unfold process_post
    rw [hch]
  · intro h
    unfold articlesConsidered
    rw [h]

/-- The article targeted by the `post-7` marker. -/
def artMark : Article :=
  { timeDatetime := some ⟨2023, 1, 2⟩, text := "zoe", dataAuthor := "",
    dataContent := "post-7", idAttr := "js-post-7",
    imgs := ["https://x/m.jpg"], videos := [], sources := [] }

/-- A sibling article on the same page that also matches the subject. -/
def artOther : Article :=
  { timeDatetime := some ⟨2023, 1, 2⟩, text := "zoe", dataAuthor := "",
    dataContent := "post-8", idAttr := "js-post-8",
    imgs := ["https://x/n.jpg"], videos := [], sources := [] }

def pageMark : Page :=
  { titleDiv := some (some "zoe"), articles := [artOther, artMark] }

/-- Witness for C10: with the marker `post-7` in the link, processing the
two-article page equals processing the page restricted to the matching
article. -/
theorem C10_witness :
    process_post "https://desifakes.com/threads/z.2/post-7" "zoe" 2010 2030
        pageMark ⟨emptyStore, emptySeen⟩ =
      process_post "https://desifakes.com/threads/z.2/post-7" "zoe" 2010 2030
        { pageMark with articles :=
            (pageMark.articles.find? (articleKeyPred "7")).toList }
        ⟨emptyStore, emptySeen⟩ :=
  ( C10_theorem "https://desifakes.com/threads/z.2/post-7" "zoe" 2010 2030
    pageMark ⟨emptyStore, emptySeen⟩).1 "7" (by rfl)

/-! ## The crawl loop over subjects (`handle_message` / `telegram_webhook`)

`media_by_date_per_username` is initialised once per crawl with one empty
store per username, and `global_seen` ONCE per crawl (before the username
loop: `app.py` line 734, `bot.py` line 802) — it is shared by all
subjects and never reset between them.  The per-subject link collection
and page walking only determine which `(link, page)` pairs reach
`process_post`; the crawl is modelled as the fold of `process_post` over
each subject's post list in subject order, threading the shared seen-set
through.  A `none` page models a post fetch that failed (the handler
skips the post, leaving the state untouched). -/

structure CrawlSt where
  stores : List (String × Store)
  seen : Seen
deriving DecidableEq, Repr

def lookupStore (u : String) : List (String × Store) → Store
  | [] => emptyStore
  | (k, s) :: t => if k == u then s else lookupStore u t

def updStore (u : String) (s' : Store) :
    List (String × Store) → List (String × Store)
  | [] => [(u, s')]
  | (k, s) :: t => if k == u then (k, s') :: t else (k, s) :: updStore u s' t

/-- Post-extraction phase for one subject: fold `process_post` over the
subject's collected post links. -/
def runPosts (u : String) (sy ey : Int) :
    List (String × Option Page) → PPState → PPState
  | [], pst => pst
  | (link, pg) :: rest, pst =>
    runPosts u sy ey rest (match pg with
      | some page => process_post link u sy ey page pst
      | none => pst)

/-- One subject's turn of the username loop. -/
def crawlStep (sy ey : Int) (cst : CrawlSt)
    (e : String × List (String × Option Page)) : CrawlSt :=
  let pst := runPosts e.1 sy ey e.2 ⟨lookupStore e.1 cst.stores, cst.seen⟩
  { stores := updStore e.1 pst.media cst.stores, seen := pst.seen }

/-- The whole crawl: stores initialised per username, ONE shared seen-set,
subjects processed sequentially. -/
def crawl (sy ey : Int)
    (input : List (String × List (String × Option Page))) : CrawlSt :=
  input.foldl (crawlStep sy ey)
    { stores := input.map (fun e => (e.1, emptyStore)), seen := emptySeen }

/-- Occurrences of a URL of one media type summed over ALL subjects'
stores. -/
def storesCount : List (String × Store) → MT → String → Nat
  | [], _, _ => 0
  | (_, s) :: t, mt, u => storeCount s mt u + storesCount t mt u

theorem storeCount_empty (mt : MT) (x : String) :
    storeCount emptyStore mt x = 0 := by
  cases mt <;> rfl

theorem storesCount_upd (u : String) (s' : Store)
    (l : List (String × Store)) (mt : MT) (x : String) :
    storesCount (updStore u s' l) mt x + storeCount (lookupStore u l) mt x =
      storesCount l mt x + storeCount s' mt x := by
  induction l with
  | nil =>
    simp only [updStore, lookupStore, storesCount, storeCount_empty]
    omega
  | cons p t ih =>
    obtain ⟨k, s⟩ := p
    unfold updStore lookupStore
    by_cases hk : (k == u) = true
    · rw [if_pos hk, if_pos hk]
      simp only [storesCount]
      omega
    · rw [if_neg hk, if_neg hk]
      simp only [storesCount]
      omega

/-- Crawl-level invariant: each URL appears at most once across ALL
subjects' stores per media type, and only when it is in the shared
seen-set. -/
def InvC (cst : CrawlSt) : Prop :=
  ∀ mt u, storesCount cst.stores mt u ≤
    (if u ∈ cst.seen.get mt then 1 else 0)

theorem invW_runPosts (R : MT → String → Nat) (u : String) (sy ey : Int)
    (posts : List (String × Option Page)) :
    ∀ pst : PPState, InvW R pst → InvW R (runPosts u sy ey posts pst) := by
  induction posts with
  | nil => intro pst h; exact h
  | cons p rest ih =>
    intro pst h
    obtain ⟨link, pg⟩ := p
    unfold runPosts
    cases pg with
    | some page => exact ih _ (invW_process_post R link u sy ey page pst h)
    | none => exact ih _ h

theorem invC_crawlStep (sy ey : Int) (cst : CrawlSt)
    (e : String × List (String × Option Page)) (h : InvC cst) :
    InvC (crawlStep sy ey cst e) := by
  have hpre : InvW
      (fun mt x => storesCount (updStore e.1 emptyStore cst.stores) mt x)
      ⟨lookupStore e.1 cst.stores, cst.seen⟩ := by
    intro mt x
    have h1 := storesCount_upd e.1 emptyStore cst.stores mt x
    rw [storeCount_empty] at h1
    have h2 := h mt x
    show storesCount (updStore e.1 emptyStore cst.stores) mt x +
      storeCount (lookupStore e.1 cst.stores) mt x ≤
      (if x ∈ cst.seen.get mt then 1 else 0)
    omega
  have hpost := invW_runPosts
    (fun mt x => storesCount (updStore e.1 emptyStore cst.stores) mt x)
    e.1 sy ey e.2 _ hpre
  intro mt x
  have h3 : storesCount (updStore e.1 emptyStore cst.stores) mt x +
      storeCount (runPosts e.1 sy ey e.2
        ⟨lookupStore e.1 cst.stores, cst.seen⟩).media mt x ≤
      (if x ∈ (runPosts e.1 sy ey e.2
        ⟨lookupStore e.1 cst.stores, cst.seen⟩).seen.get mt
       then 1 else 0) := hpost mt x
  have h4 := storesCount_upd e.1
    (runPosts e.1 sy ey e.2 ⟨lookupStore e.1 cst.stores, cst.seen⟩).media
    cst.stores mt x
  have h1 := storesCount_upd e.1 emptyStore cst.stores mt x
  rw [storeCount_empty] at h1
  show storesCount (updStore e.1
      (runPosts e.1 sy ey e.2
        ⟨lookupStore e.1 cst.stores, cst.seen⟩).media cst.stores) mt x ≤
    (if x ∈ (runPosts e.1 sy ey e.2
      ⟨lookupStore e.1 cst.stores, cst.seen⟩).seen.get mt then 1 else 0)
  omega

theorem storesCount_init
    (input : List (String × List (String × Option Page))) (mt : MT)
    (x : String) :
    storesCount (input.map (fun e => (e.1, emptyStore))) mt x = 0 := by
  induction input with
  | nil => rfl
  | cons e t ih =>
    simp only [List.map_cons, storesCount, storeCount_empty, ih]

/-- C1 (corrected).  Media-URL deduplication is NOT per subject: the
seen-set is created once per crawl and shared by every subject, so across
the WHOLE crawl each URL is stored at most once per media type, summed
over all subjects' stores — a URL recorded for one subject can never be
recorded again for a different subject in the same crawl. -/
theorem C1_theorem : ∀ (startYear endYear : Int)
    (input : List (String × List (String × Option Page))) (mt : MT)
    (u : String),
    storesCount (crawl startYear endYear input).stores mt u ≤ 1 := by
  intro sy ey input mt u
  have hinit : InvC ⟨input.map (fun e => (e.1, emptyStore)), emptySeen⟩ := by
    intro mt' u'
    show storesCount (input.map (fun e => (e.1, emptyStore))) mt' u' ≤ _
    rw [storesCount_init]
    exact Nat.zero_le _
  have hinv : InvC (crawl sy ey input) :=
    foldl_pres InvC (crawlStep sy ey)
      (fun cst e hh => invC_crawlStep sy ey cst e hh) input _ hinit
  have h1 := hinv mt u
  have h2 : (if u ∈ (crawl sy ey input).seen.get mt then 1 else 0) ≤ 1 := by
    split <;> omega
  omega

/-- An article matching both subjects of the C1 counterexample crawl. -/
def artShared : Article :=
  { timeDatetime := some ⟨2020, 2, 2⟩, text := "", dataAuthor := "",
    dataContent := "", idAttr := "", imgs := ["https://x/a.jpg"],
    videos := [], sources := [] }

def pageShared : Page :=
  { titleDiv := some (some "alice bob"), articles := [artShared] }

def crawlLink : String := "https://desifakes.com/threads/s.1/"

/-- C1 counterexample.  Both subjects' crawls reach the same post page
with the same image URL.  The URL is recorded for the first subject
(`alice`), after which the shared seen-set blocks it for the second
subject (`bob`) — `bob`'s store stays empty, even though crawling `bob`
alone records the URL for `bob`.  This contradicts the claim that each
subject has its own seen-set, reset between subjects, so that a URL
recorded for one subject can still be recorded for a different one. -/
theorem C1_counterexample :
    storeCount (lookupStore "alice" (crawl 2010 2030
        [("alice", [(crawlLink, some pageShared)]),
         ("bob", [(crawlLink, some pageShared)])]).stores)
      MT.images "https://x/a.jpg" = 1 ∧
    storeCount (lookupStore "bob" (crawl 2010 2030
        [("alice", [(crawlLink, some pageShared)]),
         ("bob", [(crawlLink, some pageShared)])]).stores)
      MT.images "https://x/a.jpg" = 0 ∧
    storeCount (lookupStore "bob" (crawl 2010 2030
        [("bob", [(crawlLink, some pageShared)])]).stores)
      MT.images "https://x/a.jpg" = 1 := by
  refine ⟨by rfl, by rfl, by rfl⟩

/-! ## The Resilient Fetcher (`make_request`)

`make_request` is the same retry loop in both files (`app.py` lines
41-66, `bot.py` lines 62-83): up to `MAX_RETRIES = 3` attempts with
timeout `8 + attempt * 5`; on a failure whose text contains
`'503 Service Unavailable'` it sleeps 10 seconds, then — unless this was
the last attempt, which raises — it ALSO sleeps `1 * (attempt + 1)`
seconds.  The network is an oracle giving each attempt's outcome; the
embedding records the timeouts used, the sleeps performed in order, and
the final result. -/

/-- Outcome of one attempt: did `raise_for_status` pass, and if not, did
the error text indicate a 503. -/
structure AttemptRes where
  ok : Bool
  is503 : Bool
deriving DecidableEq, Repr

inductive FetchResult
  | success (attempt : Nat)
  | failure (url : String) (attempts : Nat)
deriving DecidableEq, Repr

structure FetchTrace where
  timeouts : List Nat
  sleeps : List Nat
  result : FetchResult
deriving DecidableEq, Repr

/-- The `for attempt in range(MAX_RETRIES)` loop over the remaining
attempt indices; `rest.isEmpty` is `attempt == MAX_RETRIES - 1`.  The
`[]` case is unreachable from `make_request` (the final iteration always
returns or raises). -/
def mrGo (oracle : Nat → AttemptRes) (url : String) : List Nat → FetchTrace
  | [] => ⟨[], [], FetchResult.failure url 3⟩
  | i :: rest =>
    if (oracle i).ok then ⟨[8 + i * 5], [], FetchResult.success i⟩
    else
      let s1 : List Nat := if (oracle i).is503 then [10] else []
      if rest.isEmpty then ⟨[8 + i * 5], s1, FetchResult.failure url 3⟩
      else
        let t := mrGo oracle url rest
        ⟨(8 + i * 5) :: t.timeouts, s1 ++ (1 * (i + 1)) :: t.sleeps, t.result⟩

def make_request (oracle : Nat → AttemptRes) (url : String) : FetchTrace :=
  mrGo oracle url [0, 1, 2]

/-- The sleep schedule stated by the amended claim: a failed NON-final
attempt `i` sleeps 10 seconds when the error indicates a 503 and then in
every case `1 * (i + 1)` seconds more; a failed final attempt sleeps 10
seconds when it is a 503 and then raises. -/
def sleepsClaimed (oracle : Nat → AttemptRes) : List Nat :=
  if (oracle 0).ok then []
  else
    (if (oracle 0).is503 then [10] else []) ++ [1] ++
      (if (oracle 1).ok then []
       else
         (if (oracle 1).is503 then [10] else []) ++ [2] ++
           (if (oracle 2).ok then []
            else if (oracle 2).is503 then [10] else []))

/-- C6 (corrected).  `make_request` performs at most 3 attempts with
timeout `8 + 5*i` on 0-indexed attempt `i`; a final failure raises an
error carrying the URL and the attempt count 3, and only after all three
attempts failed.  The sleep schedule differs from the claim: the
`1 * (attempt + 1)` backoff sleep is unconditional on non-final failed
attempts, so a 503 failure there sleeps `10 + (attempt + 1)` seconds in
two sleeps, not 10 seconds alone. -/
theorem C6_theorem : ∀ (oracle : Nat → AttemptRes) (url : String),
    (make_request oracle url).timeouts =
      (List.range (make_request oracle url).timeouts.length).map
        (fun i => 8 + 5 * i) ∧
    (make_request oracle url).timeouts.length ≤ 3 ∧
    (∀ (u' : String) (n : Nat),
      (make_request oracle url).result = FetchResult.failure u' n →
      u' = url ∧ n = 3 ∧ (oracle 0).ok = false ∧ (oracle 1).ok = false ∧
        (oracle 2).ok = false) ∧
    (make_request oracle url).sleeps = sleepsClaimed oracle := by
  intro oracle url
  cases h0 : (oracle 0).ok <;> cases h1 : (oracle 1).ok <;>
    cases h2 : (oracle 2).ok <;>
      refine ⟨?_, ?_, ?_, ?_⟩ <;>
        simp [make_request, mrGo, sleepsClaimed, h0, h1, h2, List.range,
          List.range.loop]

/-- An always-failing, never-503 oracle (e.g. connection timeouts). -/
def oracleFail : Nat → AttemptRes := fun _ => ⟨false, false⟩

/-- Witness for C6: with three plain failures the sleep schedule is the
amended one and the final error carries the URL and the attempt count. -/
theorem C6_witness :
    (make_request oracleFail "https://desifakes.com/p").sleeps =
      sleepsClaimed oracleFail ∧
    ("https://desifakes.com/p" = "https://desifakes.com/p" ∧ (3 : Nat) = 3 ∧
      (oracleFail 0).ok = false ∧ (oracleFail 1).ok = false ∧
        (oracleFail 2).ok = false) :=
  ⟨( C6_theorem oracleFail "https://desifakes.com/p").2.2.2,
    ( C6_theorem oracleFail "https://desifakes.com/p").2.2.1
      "https://desifakes.com/p" 3 (by rfl)⟩

/-- Attempt 0 fails with a 503, attempt 1 succeeds. -/
def oracle503 : Nat → AttemptRes := fun i => ⟨i != 0, i == 0⟩

/-- C6 counterexample.  After the 503 on attempt 0 the code sleeps 10
seconds AND then the unconditional `1 * (attempt + 1) = 1` second backoff
— sleeps `[10, 1]` — whereas the claim says a 503 sleeps 10 seconds
before the next attempt and OTHERWISE `1 * (attempt + 1)` seconds,
predicting `[10]`. -/
theorem C6_counterexample :
    (make_request oracle503 "https://desifakes.com/p").sleeps = [10, 1] ∧
      ([10, 1] : List Nat) ≠ [10] := by
  refine ⟨by rfl, by decide⟩
